import Mathlib

/-!
Verification development for the bonds valuation tool.

The repository consists of a command-line wrapper (cmds/bonds-cli/main.go)
around a bond valuation library.  The wrapper is embedded directly below
(mainRun); the library components it calls (Nelson-Siegel-Svensson curve,
coupon schedule, pricing, and the two root-finding solvers) are modelled
from the specification, since only their caller is part of the sources.

Modelling conventions:
- calendar dates are modelled at month granularity as integers counting
  months (the schedule steps in whole months and the 30E360 day-count of
  month-aligned dates is the month difference divided by 12);
- discount factors use the continuous-compounding equivalent allowed by
  the specification for the Nelson-Siegel-Svensson curve;
- machine floats are modelled as real numbers.
-/

open Topology

/-- Solver failures: target price unreachable, or iteration cap exceeded. -/
inductive SolverError where
  | noRootError
  | convergenceError
deriving DecidableEq

/-- Schedule generation failure (maturity not after settlement, or
non-positive frequency). -/
inductive ScheduleError where
  | invalidScheduleError
deriving DecidableEq

/-- Modelled from the spec: the six parameters of the
Nelson-Siegel-Svensson term structure (term.NelsonSiegelSvensson, whose
source is not part of the visible tree). -/
structure NelsonSiegelSvensson where
  b0 : ℝ
  b1 : ℝ
  b2 : ℝ
  b3 : ℝ
  t1 : ℝ
  t2 : ℝ

/-- Modelled from the spec: the NSS zero rate at maturity t with no
spread; at t = 0 the t to 0 limit b0 + b1 of the formula is taken instead
of dividing by zero. -/
noncomputable def spotRate (n : NelsonSiegelSvensson) (t : ℝ) : ℝ :=
  if t = 0 then n.b0 + n.b1
  else n.b0 + n.b1 * ((1 - Real.exp (-(t / n.t1))) / (t / n.t1))
    + n.b2 * ((1 - Real.exp (-(t / n.t1))) / (t / n.t1) - Real.exp (-(t / n.t1)))
    + n.b3 * ((1 - Real.exp (-(t / n.t2))) / (t / n.t2) - Real.exp (-(t / n.t2)))

/-- Modelled from the spec: the spread-adjusted zero rate, spread given in
basis points and divided by 10000. -/
noncomputable def zeroRate (n : NelsonSiegelSvensson) (t spread : ℝ) : ℝ :=
  spotRate n t + spread / 10000

/-- Modelled from the spec: the discount factor of the curve, using the
continuous-compounding equivalent the specification allows. -/
noncomputable def discountFactor (n : NelsonSiegelSvensson) (t spread : ℝ) : ℝ :=
  Real.exp (-(zeroRate n t spread) * t)

/-- The instantaneous forward rate implied by the NSS curve: the
derivative of t * spotRate t.  The data model of the spec calls this the
always-positive instantaneous forward-rate curve determined by the
parameters. -/
noncomputable def forwardRate (n : NelsonSiegelSvensson) (t : ℝ) : ℝ :=
  n.b0 + n.b1 * Real.exp (-(t / n.t1))
    + n.b2 * ((t / n.t1) * Real.exp (-(t / n.t1)))
    + n.b3 * ((t / n.t2) * Real.exp (-(t / n.t2)))

/-- The accumulated rate t * spotRate t, written without divisions so that
it is defined and differentiable also at t = 0. -/
noncomputable def rateIntegral (n : NelsonSiegelSvensson) (t : ℝ) : ℝ :=
  n.b0 * t + n.b1 * (n.t1 * (1 - Real.exp (-(t / n.t1))))
    + n.b2 * (n.t1 * (1 - Real.exp (-(t / n.t1))) - t * Real.exp (-(t / n.t1)))
    + n.b3 * (n.t2 * (1 - Real.exp (-(t / n.t2))) - t * Real.exp (-(t / n.t2)))

/-- Modelled from the spec: the coupon schedule data (maturity.T, whose
source is not part of the visible tree): settlement date, maturity date,
coupon frequency per year and a day-count convention name.  Dates are
month-granular integers. -/
structure MaturityT where
  Settlement : ℤ
  Maturity : ℤ
  Frequency : ℤ
  Basis : String

/-- A straight fixed-coupon bond (bond.Straight): a schedule plus coupon
rate in percent of par and redemption value. -/
structure Straight where
  Schedule : MaturityT
  Coupon : ℝ
  Redemption : ℝ

/-- Modelled from the spec: coupon dates generated backward from maturity
in steps of 12/frequency months, keeping the dates strictly after
settlement, returned in ascending order.  Fuel-based recursion. -/
def couponDates (settlement step : ℤ) : ℕ → ℤ → List ℤ
  | 0, _ => []
  | fuel + 1, d =>
    if d ≤ settlement then []
    else couponDates settlement step fuel (d - step) ++ [d]

/-- Modelled from the spec: the reference date for accrued interest, one
period before the first future coupon (the first stepped date on or
before settlement). -/
def prevCouponDate (settlement step : ℤ) : ℕ → ℤ → ℤ
  | 0, d => d
  | fuel + 1, d =>
    if d ≤ settlement then d
    else prevCouponDate settlement step fuel (d - step)

/-- Modelled from the spec: schedule generation validates its inputs and
fails with InvalidScheduleError if maturity is not after settlement or the
frequency is not positive. -/
def generate (settlement maturity frequency : ℤ) : Except ScheduleError (List ℤ) :=
  if frequency ≤ 0 then Except.error ScheduleError.invalidScheduleError
  else if maturity ≤ settlement then Except.error ScheduleError.invalidScheduleError
  else Except.ok (couponDates settlement (12 / frequency)
    ((maturity - settlement).toNat + 1) maturity)

/-- A scheduled cash flow: its year fraction from settlement and its
amount. -/
structure CashFlow where
  time : ℝ
  amount : ℝ

/-- The periodic coupon amount coupon * redemption / frequency / 100. -/
noncomputable def couponAmount (b : Straight) : ℝ :=
  b.Coupon * b.Redemption / (b.Schedule.Frequency : ℝ) / 100

/-- Modelled from the spec: the future cash flows of a straight bond,
each tagged with its year fraction from settlement; the flow at maturity
additionally carries the redemption value. -/
noncomputable def Straight.cashflows (b : Straight) : List CashFlow :=
  (couponDates b.Schedule.Settlement (12 / b.Schedule.Frequency)
      ((b.Schedule.Maturity - b.Schedule.Settlement).toNat + 1)
      b.Schedule.Maturity).map
    (fun d => ⟨((d - b.Schedule.Settlement : ℤ) : ℝ) / 12,
      couponAmount b + (if d = b.Schedule.Maturity then b.Redemption else 0)⟩)

/-- Modelled from the spec: the accrual fraction of the running coupon
period elapsed at settlement. -/
noncomputable def Straight.accruedFraction (b : Straight) : ℝ :=
  (b.Schedule.Frequency : ℝ) *
    (((b.Schedule.Settlement -
      prevCouponDate b.Schedule.Settlement (12 / b.Schedule.Frequency)
        ((b.Schedule.Maturity - b.Schedule.Settlement).toNat + 1)
        b.Schedule.Maturity : ℤ) : ℝ) / 12)

/-- Modelled from the spec: accrued interest, the coupon amount scaled by
the accrual fraction since the last coupon. -/
noncomputable def Straight.Accrued (b : Straight) : ℝ :=
  couponAmount b * b.accruedFraction

/-- Modelled from the spec: pricing discounts every scheduled cash flow,
returning the pair of dirty price and clean price, where the clean price
is the dirty price minus accrued interest. -/
noncomputable def Straight.Pricing (b : Straight) (spread : ℝ)
    (n : NelsonSiegelSvensson) : ℝ × ℝ :=
  let dirty := (b.cashflows.map
    (fun cf => cf.amount * discountFactor n cf.time spread)).sum
  (dirty, dirty - b.Accrued)

/-- Modelled from the spec: years to maturity as the day-count fraction
from settlement to maturity. -/
noncomputable def Straight.YearsToMaturity (b : Straight) : ℝ :=
  ((b.Schedule.Maturity - b.Schedule.Settlement : ℤ) : ℝ) / 12

/-- Modelled from the spec: modified duration as the price-weighted
average time to cash flow. -/
noncomputable def Straight.Duration (b : Straight) (spread : ℝ)
    (n : NelsonSiegelSvensson) : ℝ :=
  (b.cashflows.map
    (fun cf => cf.time * cf.amount * discountFactor n cf.time spread)).sum
    / (b.Pricing spread n).1

/-- Modelled from the spec: bisection root finding over a bracket for a
monotonically decreasing objective.  Stops when the bracket width falls
below the tolerance; the iteration cap makes it fail with
ConvergenceError instead of looping. -/
noncomputable def bisect (f : ℝ → ℝ) (target lo hi tol : ℝ) :
    ℕ → Except SolverError ℝ
  | 0 => Except.error SolverError.convergenceError
  | fuel + 1 =>
    if hi - lo < tol then Except.ok ((lo + hi) / 2)
    else if target < f ((lo + hi) / 2) then
      bisect f target ((lo + hi) / 2) hi tol fuel
    else bisect f target lo ((lo + hi) / 2) tol fuel

/-- Modelled from the spec: the spread solver inverts the clean price
produced by Pricing into a static spread over the bracket of minus 1000
to plus 10000 basis points, tolerance 1e-6, iteration cap 100. -/
noncomputable def Spread (targetPrice : ℝ) (b : Straight)
    (n : NelsonSiegelSvensson) : Except SolverError ℝ :=
  bisect (fun x => (b.Pricing x n).2) targetPrice (-1000) 10000 (1 / 1000000) 100

/-- Modelled from the spec: the clean price of the bond when its cash
flows are discounted at a constant flat yield y in percent, compounded
frequency times per year. -/
noncomputable def flatCleanPrice (b : Straight) (y : ℝ) : ℝ :=
  (b.cashflows.map (fun cf => cf.amount *
    (1 + y / 100 / (b.Schedule.Frequency : ℝ)) ^
      (-((b.Schedule.Frequency : ℝ) * cf.time)))).sum - b.Accrued

/-- Modelled from the spec: the yield solver fails with NoRootError on a
non-positive target price and otherwise inverts the flat-yield clean
price over the bracket of minus 50 to plus 100 percent. -/
noncomputable def IRR (targetPrice : ℝ) (b : Straight) :
    Except SolverError ℝ :=
  if targetPrice ≤ 0 then Except.error SolverError.noRootError
  else bisect (fun y => flatCleanPrice b y) targetPrice (-50) 100 (1 / 1000000) 100

/-- The command-line flag values received by the wrapper.  The two date
flags are optional: when a flag is omitted the wrapper falls back to a
default derived from the current clock.  Numeric flags are carried
exactly as parsed. -/
structure Flags where
  settlement : Option ℤ
  maturity : Option ℤ
  coupon : ℝ
  frequency : ℤ
  quote : ℝ
  redemption : ℝ
  spread : ℝ
  daycount : String

/-- The environment of one run: the current clock (month-granular date)
and the outcome of reading the term-structure parameter file. -/
structure Env where
  today : ℤ
  fileRead : Except Unit (List ℕ)

/-- The byte data the wrapper hands to unmarshalling: the file content on
a successful read, and the empty (nil) slice when reading failed, since a
read failure is only logged. -/
def envData (env : Env) : List ℕ :=
  match env.fileRead with
  | Except.ok d => d
  | Except.error _ => []

/-- Observable events of one run of the wrapper, in program order. -/
inductive Event where
  | readFile
  | unmarshalData
  | printTemplate
  | mkBond
  | pricing
  | duration
  | accruedQ
  | irrSolve
  | spreadSolve
  | fatalExit
  | printReport
deriving DecidableEq

/-- The numbers a successful run computes and prints: the resolved dates,
the constructed bond, the pricing results, and the single target price
selected for both solvers. -/
structure Report where
  settlementDate : ℤ
  maturityDate : ℤ
  bond : Straight
  yearsToMaturity : ℝ
  modDuration : ℝ
  dirty : ℝ
  accrued : ℝ
  clean : ℝ
  bondPrice : ℝ

/-- The outcome of one run: the template fallback, a fatal solver error
(after the pricing report was printed), or a completed run with the two
solved values. -/
inductive Outcome where
  | template (t : NelsonSiegelSvensson)
  | irrFatal (r : Report)
  | spreadFatal (r : Report) (irr : ℝ)
  | done (r : Report) (irr : ℝ) (spread : ℝ)

/-- The report of an outcome, when the run got past the template check. -/
def Outcome.reportOf : Outcome → Option Report
  | Outcome.template _ => none
  | Outcome.irrFatal r => some r
  | Outcome.spreadFatal r _ => some r
  | Outcome.done r _ _ => some r

/-- The report assembled by the wrapper once the curve parameters are
available: dates resolved from the flags (falling back to the clock),
the bond built field-for-field from the flags, one Pricing call, and the
target price selection of lines 101 to 103 of main.go. -/
noncomputable def mkReport (fl : Flags) (env : Env)
    (n : NelsonSiegelSvensson) : Report :=
  let quoteDate := fl.settlement.getD env.today
  let maturityDate := fl.maturity.getD (env.today + 12)
  let bond : Straight :=
    ⟨⟨quoteDate, maturityDate, fl.frequency, fl.daycount⟩, fl.coupon, fl.redemption⟩
  let p := bond.Pricing fl.spread n
  { settlementDate := quoteDate
    maturityDate := maturityDate
    bond := bond
    yearsToMaturity := bond.YearsToMaturity
    modDuration := bond.Duration fl.spread n
    dirty := p.1
    accrued := bond.Accrued
    clean := p.2
    bondPrice := if 0 < fl.quote then fl.quote else p.2 }

/-- The wrapper main function (cmds/bonds-cli/main.go), embedded as a
function from the parse result of the standard json unmarshaller, the
run environment and the flags to an outcome and the list of events in
program order. -/
noncomputable def mainRun (unmarshal : List ℕ → Option NelsonSiegelSvensson)
    (env : Env) (fl : Flags) : Outcome × List Event :=
  match unmarshal (envData env) with
  | none =>
    (Outcome.template ⟨0, 0, 0, 0, 0, 0⟩,
     [Event.readFile, Event.unmarshalData, Event.printTemplate])
  | some n =>
    let r := mkReport fl env n
    match IRR r.bondPrice r.bond with
    | Except.error _ =>
      (Outcome.irrFatal r,
       [Event.readFile, Event.unmarshalData, Event.mkBond, Event.pricing,
        Event.duration, Event.accruedQ, Event.irrSolve, Event.fatalExit])
    | Except.ok y =>
      match Spread r.bondPrice r.bond n with
      | Except.error _ =>
        (Outcome.spreadFatal r y,
         [Event.readFile, Event.unmarshalData, Event.mkBond, Event.pricing,
          Event.duration, Event.accruedQ, Event.irrSolve, Event.spreadSolve,
          Event.fatalExit])
      | Except.ok s =>
        (Outcome.done r y s,
         [Event.readFile, Event.unmarshalData, Event.mkBond, Event.pricing,
          Event.duration, Event.accruedQ, Event.irrSolve, Event.spreadSolve,
          Event.printReport])

/-- Whenever the curve parameters unmarshal successfully, the run carries
the canonical report, regardless of how the solvers fare. -/
theorem reportOf_mainRun (unmarshal : List ℕ → Option NelsonSiegelSvensson)
    (env : Env) (fl : Flags) (n : NelsonSiegelSvensson)
    (h : unmarshal (envData env) = some n) :
    ((mainRun unmarshal env fl).1).reportOf = some (mkReport fl env n) := by
  unfold mainRun
  rw [h]
  rcases hirr : IRR (mkReport fl env n).bondPrice (mkReport fl env n).bond with e | y
  · simp [hirr, Outcome.reportOf]
  · rcases hspr : Spread (mkReport fl env n).bondPrice (mkReport fl env n).bond n with e | s
    · simp [hirr, hspr, Outcome.reportOf]
    · simp [hirr, hspr, Outcome.reportOf]

/-- A sample curve: a flat three percent zero rate. -/
noncomputable def nssSample : NelsonSiegelSvensson := ⟨3 / 100, 0, 0, 0, 1, 1⟩

/-- Sample flag values: both dates supplied, a one-year five percent
annual bond. -/
def flagsSample : Flags := ⟨some 0, some 12, 5, 1, 0, 100, 0, "30E360"⟩

/-- Sample flag values with the settlement flag omitted. -/
def flagsNoSettle : Flags := ⟨none, some 12, 5, 1, 0, 100, 0, "30E360"⟩

/-- A sample run environment: a successfully read (empty) file. -/
def envSample : Env := ⟨0, Except.ok []⟩

/-- A sample unmarshaller that always succeeds with the sample curve. -/
noncomputable def unmarshalSample : List ℕ → Option NelsonSiegelSvensson :=
  fun _ => some nssSample

/-- A sample unmarshaller that fails exactly on empty input, as the
standard json unmarshaller does. -/
noncomputable def unmarshalStrict : List ℕ → Option NelsonSiegelSvensson :=
  fun d => if d = [] then none else some nssSample

/-- C2: the pair returned by Pricing satisfies clean = dirty minus the
accrued interest returned by the Accrued query, exactly, for every bond,
curve and spread; and the three numbers a run prints stand in the same
identity. -/
theorem pricing_clean_dirty_accrued :
    (∀ (b : Straight) (spread : ℝ) (n : NelsonSiegelSvensson),
      (b.Pricing spread n).2 = (b.Pricing spread n).1 - b.Accrued)
    ∧ ∀ (u : List ℕ → Option NelsonSiegelSvensson) (env : Env) (fl : Flags)
        (r : Report), ((mainRun u env fl).1).reportOf = some r →
        r.clean = r.dirty - r.accrued := by
  constructor
  · intro b s n
    rfl
  · intro u env fl r h
    rcases hu : u (envData env) with _ | n
    · unfold mainRun at h
      rw [hu] at h
      simp [Outcome.reportOf] at h
    · rw [reportOf_mainRun u env fl n hu] at h
      injection h with h
      subst h
      rfl

/-- Witness for C2 at concrete inputs. -/
theorem pricing_clean_dirty_accrued_witness :
    ((mainRun unmarshalSample envSample flagsSample).1).reportOf =
      some (mkReport flagsSample envSample nssSample)
    ∧ (mkReport flagsSample envSample nssSample).clean =
        (mkReport flagsSample envSample nssSample).dirty -
          (mkReport flagsSample envSample nssSample).accrued := by
  have hr := reportOf_mainRun unmarshalSample envSample flagsSample nssSample rfl
  exact ⟨hr, pricing_clean_dirty_accrued.2 unmarshalSample envSample flagsSample _ hr⟩

/-- C4: when the term-structure data does not unmarshal, the program
prints the zero-valued template and returns at once: no bond
construction, no pricing and no solving appear in the event trace. -/
theorem template_on_unmarshal_failure
    (u : List ℕ → Option NelsonSiegelSvensson) (env : Env) (fl : Flags)
    (hu : u (envData env) = none) :
    mainRun u env fl =
      (Outcome.template ⟨0, 0, 0, 0, 0, 0⟩,
       [Event.readFile, Event.unmarshalData, Event.printTemplate]) := by
  unfold mainRun
  rw [hu]

/-- Witness for C4 at concrete inputs. -/
theorem template_on_unmarshal_failure_witness :
    (fun _ : List ℕ => (none : Option NelsonSiegelSvensson)) (envData envSample) = none
    ∧ mainRun (fun _ => none) envSample flagsSample =
      (Outcome.template ⟨0, 0, 0, 0, 0, 0⟩,
       [Event.readFile, Event.unmarshalData, Event.printTemplate]) :=
  ⟨rfl, template_on_unmarshal_failure (fun _ => none) envSample flagsSample rfl⟩

/-- C8: a failed file read is only logged; the run goes on to unmarshal
the empty data, and since the unmarshaller rejects empty input the run
always lands in the template path, so pricing never runs with parameters
that were not loaded. -/
theorem read_failure_lands_in_template
    (u : List ℕ → Option NelsonSiegelSvensson) (env : Env) (fl : Flags)
    (hu : u [] = none) (he : env.fileRead = Except.error ()) :
    mainRun u env fl =
      (Outcome.template ⟨0, 0, 0, 0, 0, 0⟩,
       [Event.readFile, Event.unmarshalData, Event.printTemplate]) := by
  have hd : envData env = [] := by
    unfold envData
    rw [he]
  unfold mainRun
  rw [hd, hu]

/-- Witness for C8 at concrete inputs. -/
theorem read_failure_lands_in_template_witness :
    unmarshalStrict [] = none
    ∧ (⟨0, Except.error ()⟩ : Env).fileRead = Except.error ()
    ∧ mainRun unmarshalStrict ⟨0, Except.error ()⟩ flagsSample =
      (Outcome.template ⟨0, 0, 0, 0, 0, 0⟩,
       [Event.readFile, Event.unmarshalData, Event.printTemplate]) :=
  ⟨rfl, rfl,
    read_failure_lands_in_template unmarshalStrict ⟨0, Except.error ()⟩
      flagsSample rfl rfl⟩

/-- C7: in every run the parameter file is read exactly once, and that
read is the first event of the trace, before any pricing, duration or
solver call. -/
theorem file_read_once_before_valuation
    (u : List ℕ → Option NelsonSiegelSvensson) (env : Env) (fl : Flags) :
    ∃ rest, (mainRun u env fl).2 = Event.readFile :: rest
      ∧ Event.readFile ∉ rest := by
  rcases hu : u (envData env) with _ | n
  · refine ⟨[Event.unmarshalData, Event.printTemplate], ?_, by decide⟩
    unfold mainRun
    rw [hu]
  · rcases hirr : IRR (mkReport fl env n).bondPrice (mkReport fl env n).bond with e | y
    · refine ⟨[Event.unmarshalData, Event.mkBond, Event.pricing, Event.duration,
        Event.accruedQ, Event.irrSolve, Event.fatalExit], ?_, by decide⟩
      unfold mainRun
      rw [hu]
      simp [hirr]
    · rcases hspr : Spread (mkReport fl env n).bondPrice (mkReport fl env n).bond n with e | s
      · refine ⟨[Event.unmarshalData, Event.mkBond, Event.pricing, Event.duration,
          Event.accruedQ, Event.irrSolve, Event.spreadSolve, Event.fatalExit], ?_, by decide⟩
        unfold mainRun
        rw [hu]
        simp [hirr, hspr]
      · refine ⟨[Event.unmarshalData, Event.mkBond, Event.pricing, Event.duration,
          Event.accruedQ, Event.irrSolve, Event.spreadSolve, Event.printReport], ?_, by decide⟩
        unfold mainRun
        rw [hu]
        simp [hirr, hspr]

/-- C5: schedule generation on equal settlement and maturity dates fails
with InvalidScheduleError, and the wrapper itself performs no such check:
it passes the two resolved dates into the bond schedule unmodified. -/
theorem schedule_error_and_date_passthrough :
    (∀ (d frequency : ℤ),
      generate d d frequency = Except.error ScheduleError.invalidScheduleError)
    ∧ ∀ (u : List ℕ → Option NelsonSiegelSvensson) (env : Env) (fl : Flags)
        (n : NelsonSiegelSvensson) (r : Report),
        u (envData env) = some n →
        ((mainRun u env fl).1).reportOf = some r →
        r.bond.Schedule.Settlement = fl.settlement.getD env.today
        ∧ r.bond.Schedule.Maturity = fl.maturity.getD (env.today + 12) := by
  constructor
  · intro d freq
    unfold generate
    by_cases h : freq ≤ 0
    · rw [if_pos h]
    · rw [if_neg h, if_pos (le_refl d)]
  · intro u env fl n r hn hr
    rw [reportOf_mainRun u env fl n hn] at hr
    injection hr with hr
    subst hr
    exact ⟨rfl, rfl⟩

/-- Witness for C5 at concrete inputs. -/
theorem schedule_error_and_date_passthrough_witness :
    generate 3 3 1 = Except.error ScheduleError.invalidScheduleError
    ∧ ((mkReport flagsSample envSample nssSample).bond.Schedule.Settlement =
        flagsSample.settlement.getD envSample.today
      ∧ (mkReport flagsSample envSample nssSample).bond.Schedule.Maturity =
        flagsSample.maturity.getD (envSample.today + 12)) := by
  refine ⟨schedule_error_and_date_passthrough.1 3 1, ?_⟩
  exact schedule_error_and_date_passthrough.2 unmarshalSample envSample flagsSample
    nssSample _ rfl (reportOf_mainRun unmarshalSample envSample flagsSample nssSample rfl)

/-- C9: the wrapper validates nothing: the bond it constructs carries the
flag values field for field, and pricing and duration are invoked with
the spread flag exactly as parsed. -/
theorem cli_no_validation_passthrough
    (u : List ℕ → Option NelsonSiegelSvensson) (env : Env) (fl : Flags)
    (n : NelsonSiegelSvensson) (r : Report)
    (hn : u (envData env) = some n)
    (hr : ((mainRun u env fl).1).reportOf = some r) :
    r.bond = ⟨⟨fl.settlement.getD env.today, fl.maturity.getD (env.today + 12),
        fl.frequency, fl.daycount⟩, fl.coupon, fl.redemption⟩
    ∧ (r.dirty, r.clean) = r.bond.Pricing fl.spread n
    ∧ r.modDuration = r.bond.Duration fl.spread n := by
  rw [reportOf_mainRun u env fl n hn] at hr
  injection hr with hr
  subst hr
  exact ⟨rfl, rfl, rfl⟩

/-- Witness for C9 at concrete inputs. -/
theorem cli_no_validation_passthrough_witness :
    (mkReport flagsSample envSample nssSample).bond =
      ⟨⟨flagsSample.settlement.getD envSample.today,
        flagsSample.maturity.getD (envSample.today + 12),
        flagsSample.frequency, flagsSample.daycount⟩,
        flagsSample.coupon, flagsSample.redemption⟩ :=
  (cli_no_validation_passthrough unmarshalSample envSample flagsSample nssSample _
    rfl (reportOf_mainRun unmarshalSample envSample flagsSample nssSample rfl)).1

/-- C1: one single target price is selected: the quoted price when the
quote flag is strictly positive, and the clean price just computed by
Pricing otherwise; both IRR and Spread receive exactly that value, so a
non-positive quote never reaches the yield solver failure path. -/
theorem cli_target_price_selection
    (u : List ℕ → Option NelsonSiegelSvensson) (env : Env) (fl : Flags)
    (n : NelsonSiegelSvensson) (r : Report)
    (hn : u (envData env) = some n)
    (hr : ((mainRun u env fl).1).reportOf = some r) :
    r.bondPrice = (if 0 < fl.quote then fl.quote else r.clean)
    ∧ r.clean = (r.bond.Pricing fl.spread n).2
    ∧ (∀ y s, (mainRun u env fl).1 = Outcome.done r y s →
        IRR r.bondPrice r.bond = Except.ok y
        ∧ Spread r.bondPrice r.bond n = Except.ok s)
    ∧ ((mainRun u env fl).1 = Outcome.irrFatal r →
        ∃ e, IRR r.bondPrice r.bond = Except.error e) := by
  have hrep := reportOf_mainRun u env fl n hn
  rw [hrep] at hr
  injection hr with hr
  subst hr
  refine ⟨rfl, rfl, ?_, ?_⟩
  · intro y s hdone
    unfold mainRun at hdone
    rw [hn] at hdone
    rcases hirr : IRR (mkReport fl env n).bondPrice (mkReport fl env n).bond with e | y'
    · simp [hirr] at hdone
    · rcases hspr : Spread (mkReport fl env n).bondPrice (mkReport fl env n).bond n with e | s'
      · simp [hirr, hspr] at hdone
      · simp [hirr, hspr] at hdone
        obtain ⟨hy, hs⟩ := hdone
        simp [hy, hs]
  · intro hfatal
    unfold mainRun at hfatal
    rw [hn] at hfatal
    rcases hirr : IRR (mkReport fl env n).bondPrice (mkReport fl env n).bond with e | y'
    · exact ⟨e, rfl⟩
    · rcases hspr : Spread (mkReport fl env n).bondPrice (mkReport fl env n).bond n with e | s'
      · simp [hirr, hspr] at hfatal
      · simp [hirr, hspr] at hfatal

/-- Witness for C1 at concrete inputs. -/
theorem cli_target_price_selection_witness :
    unmarshalSample (envData envSample) = some nssSample
    ∧ ((mainRun unmarshalSample envSample flagsSample).1).reportOf =
        some (mkReport flagsSample envSample nssSample)
    ∧ (mkReport flagsSample envSample nssSample).bondPrice =
        (if 0 < flagsSample.quote then flagsSample.quote
         else (mkReport flagsSample envSample nssSample).clean) := by
  have hr := reportOf_mainRun unmarshalSample envSample flagsSample nssSample rfl
  exact ⟨rfl, hr,
    (cli_target_price_selection unmarshalSample envSample flagsSample nssSample _
      rfl hr).1⟩

/-- C10: with both date flags supplied, the output is a deterministic
function of the flags and the file content (the clock is irrelevant);
with a date flag omitted the default comes from the clock (settlement
defaults to today, maturity to one year after today), so otherwise
identical runs on different days can differ. -/
theorem output_determinism_and_clock_defaults :
    (∀ (u : List ℕ → Option NelsonSiegelSvensson) (fl : Flags) (env₁ env₂ : Env),
      env₁.fileRead = env₂.fileRead → fl.settlement.isSome → fl.maturity.isSome →
      mainRun u env₁ fl = mainRun u env₂ fl)
    ∧ (∃ (u : List ℕ → Option NelsonSiegelSvensson) (fl : Flags) (env₁ env₂ : Env),
        env₁.fileRead = env₂.fileRead ∧ fl.settlement = none
        ∧ mainRun u env₁ fl ≠ mainRun u env₂ fl)
    ∧ (∀ (u : List ℕ → Option NelsonSiegelSvensson) (env : Env) (fl : Flags)
        (n : NelsonSiegelSvensson) (r : Report),
        u (envData env) = some n →
        ((mainRun u env fl).1).reportOf = some r →
        (fl.settlement = none → r.settlementDate = env.today)
        ∧ (fl.maturity = none → r.maturityDate = env.today + 12)) := by
  refine ⟨?_, ?_, ?_⟩
  · rintro u fl ⟨t₁, f₁⟩ ⟨t₂, f₂⟩ hf hs hm
    obtain ⟨sd, hsd⟩ := Option.isSome_iff_exists.1 hs
    obtain ⟨md, hmd⟩ := Option.isSome_iff_exists.1 hm
    simp only at hf
    subst hf
    simp only [mainRun, mkReport, envData, hsd, hmd, Option.getD_some]
  · refine ⟨unmarshalSample, flagsNoSettle, ⟨0, Except.ok []⟩, ⟨1, Except.ok []⟩,
      rfl, rfl, ?_⟩
    intro heq
    have h1 := reportOf_mainRun unmarshalSample ⟨0, Except.ok []⟩ flagsNoSettle nssSample rfl
    have h2 := reportOf_mainRun unmarshalSample ⟨1, Except.ok []⟩ flagsNoSettle nssSample rfl
    rw [congrArg (fun p => Outcome.reportOf p.1) heq] at h1
    rw [h2] at h1
    injection h1 with h1
    have h3 := congrArg Report.settlementDate h1
    simp [mkReport, flagsNoSettle] at h3
  · intro u env fl n r hn hr
    rw [reportOf_mainRun u env fl n hn] at hr
    injection hr with hr
    subst hr
    constructor
    · intro h
      simp [mkReport, h]
    · intro h
      simp [mkReport, h]

/-- Witness for C10: two runs with both dates supplied and the same file
content but different clocks produce identical output. -/
theorem output_determinism_and_clock_defaults_witness :
    mainRun unmarshalSample ⟨3, Except.ok []⟩ flagsSample =
      mainRun unmarshalSample ⟨7, Except.ok []⟩ flagsSample :=
  output_determinism_and_clock_defaults.1 unmarshalSample flagsSample
    ⟨3, Except.ok []⟩ ⟨7, Except.ok []⟩ rfl rfl rfl

/-- Every generated coupon date lies strictly after settlement. -/
theorem couponDates_mem_gt (settlement step : ℤ) :
    ∀ (fuel : ℕ) (d x : ℤ), x ∈ couponDates settlement step fuel d →
    settlement < x := by
  intro fuel
  induction fuel with
  | zero =>
    intro d x hx
    simp [couponDates] at hx
  | succ k ih =>
    intro d x hx
    unfold couponDates at hx
    by_cases h : d ≤ settlement
    · rw [if_pos h] at hx
      simp at hx
    · rw [if_neg h] at hx
      rcases List.mem_append.1 hx with h1 | h2
      · exact ih _ _ h1
      · simp at h2
        subst h2
        omega

/-- When maturity is after settlement, maturity itself is a generated
coupon date. -/
theorem couponDates_maturity_mem (settlement step d : ℤ) (fuel : ℕ)
    (h : settlement < d) : d ∈ couponDates settlement step (fuel + 1) d := by
  unfold couponDates
  rw [if_neg (by omega)]
  exact List.mem_append.2 (Or.inr (by simp))

/-- The discount factor at a positive maturity is strictly decreasing in
the spread. -/
theorem discountFactor_strictAnti (n : NelsonSiegelSvensson) (t : ℝ)
    (ht : 0 < t) : StrictAnti (fun x => discountFactor n t x) := by
  intro a b hab
  unfold discountFactor zeroRate
  apply Real.exp_lt_exp.2
  have h : a / 10000 < b / 10000 := by linarith
  nlinarith [mul_lt_mul_of_pos_right h ht]

/-- The discount factor at a nonnegative maturity is weakly decreasing in
the spread. -/
theorem discountFactor_antitone (n : NelsonSiegelSvensson) (t : ℝ)
    (ht : 0 ≤ t) : Antitone (fun x => discountFactor n t x) := by
  intro a b hab
  unfold discountFactor zeroRate
  apply Real.exp_le_exp.2
  have h : a / 10000 ≤ b / 10000 := by linarith
  nlinarith [mul_le_mul_of_nonneg_right h ht]

/-- A sum of discounted nonnegative cash flows is weakly decreasing in
the spread. -/
theorem sum_df_antitone (n : NelsonSiegelSvensson) :
    ∀ l : List CashFlow, (∀ cf ∈ l, 0 ≤ cf.amount ∧ 0 ≤ cf.time) →
    Antitone (fun x =>
      (l.map (fun cf => cf.amount * discountFactor n cf.time x)).sum) := by
  intro l
  induction l with
  | nil =>
    intro _ a b _
    simp
  | cons hd tl ih =>
    intro h a b hab
    have hhd := h hd (by simp)
    have htl := ih (fun cf hcf => h cf (by simp [hcf])) hab
    simp only [List.map_cons, List.sum_cons]
    have h1 : hd.amount * discountFactor n hd.time b ≤
        hd.amount * discountFactor n hd.time a :=
      mul_le_mul_of_nonneg_left (discountFactor_antitone n hd.time hhd.2 hab) hhd.1
    exact add_le_add h1 htl

/-- A sum of discounted nonnegative cash flows at strictly positive times
with at least one strictly positive amount is strictly decreasing in the
spread. -/
theorem sum_df_strictAnti (n : NelsonSiegelSvensson) :
    ∀ l : List CashFlow, (∀ cf ∈ l, 0 ≤ cf.amount ∧ 0 < cf.time) →
    (∃ cf ∈ l, 0 < cf.amount) →
    StrictAnti (fun x =>
      (l.map (fun cf => cf.amount * discountFactor n cf.time x)).sum) := by
  intro l
  induction l with
  | nil =>
    intro _ hex
    simp at hex
  | cons hd tl ih =>
    intro h hex
    have hhd := h hd (by simp)
    intro a b hab
    simp only [List.map_cons, List.sum_cons]
    by_cases hpos : 0 < hd.amount
    · have h1 : hd.amount * discountFactor n hd.time b <
          hd.amount * discountFactor n hd.time a :=
        mul_lt_mul_of_pos_left (discountFactor_strictAnti n hd.time hhd.2 hab) hpos
      have h2 := sum_df_antitone n tl
        (fun cf hcf => ⟨(h cf (by simp [hcf])).1, (h cf (by simp [hcf])).2.le⟩) hab.le
      exact add_lt_add_of_lt_of_le h1 h2
    · have hz : hd.amount = 0 := le_antisymm (not_lt.1 hpos) hhd.1
      obtain ⟨cf, hcf, hcfpos⟩ := hex
      rcases List.mem_cons.1 hcf with heq | hmem
      · rw [heq] at hcfpos
        exact absurd hcfpos hpos
      · have hstrict := ih (fun cf2 hcf2 => h cf2 (by simp [hcf2]))
          ⟨cf, hmem, hcfpos⟩ hab
        simp only [hz, zero_mul, zero_add]
        exact hstrict

/-- For a well-formed bond every scheduled cash flow has a nonnegative
amount and a strictly positive time to payment. -/
theorem cashflows_pos (b : Straight) (hr : 0 ≤ b.Redemption)
    (hc : 0 ≤ b.Coupon) (hf : 0 < b.Schedule.Frequency) :
    ∀ cf ∈ b.cashflows, 0 ≤ cf.amount ∧ 0 < cf.time := by
  intro cf hcf
  unfold Straight.cashflows at hcf
  obtain ⟨d, hd, rfl⟩ := List.mem_map.1 hcf
  have hgt := couponDates_mem_gt _ _ _ _ _ hd
  have hfr : (0:ℝ) < (b.Schedule.Frequency : ℝ) := by exact_mod_cast hf
  constructor
  · have hca : 0 ≤ couponAmount b := by
      unfold couponAmount
      have h1 : 0 ≤ b.Coupon * b.Redemption := mul_nonneg hc hr
      positivity
    have hite : (0:ℝ) ≤ (if d = b.Schedule.Maturity then b.Redemption else 0) := by
      split
      · exact hr
      · exact le_refl 0
    simpa using add_nonneg hca hite
  · have h1 : (0:ℝ) < ((d - b.Schedule.Settlement : ℤ) : ℝ) := by
      exact_mod_cast (by omega : (0:ℤ) < d - b.Schedule.Settlement)
    simpa using div_pos h1 (by norm_num : (0:ℝ) < 12)

/-- When maturity is after settlement, the redemption cash flow at
maturity is among the scheduled flows. -/
theorem maturity_flow_mem (b : Straight)
    (hm : b.Schedule.Settlement < b.Schedule.Maturity) :
    (⟨((b.Schedule.Maturity - b.Schedule.Settlement : ℤ) : ℝ) / 12,
      couponAmount b + b.Redemption⟩ : CashFlow) ∈ b.cashflows := by
  unfold Straight.cashflows
  apply List.mem_map.2
  refine ⟨b.Schedule.Maturity, ?_, ?_⟩
  · exact couponDates_maturity_mem _ _ _ _ hm
  · simp

/-- For a bond with positive redemption, nonnegative coupon, positive
frequency and maturity after settlement, the clean price is strictly
decreasing in the spread. -/
theorem cleanPrice_strictAnti (b : Straight) (n : NelsonSiegelSvensson)
    (hr : 0 < b.Redemption) (hc : 0 ≤ b.Coupon) (hf : 0 < b.Schedule.Frequency)
    (hm : b.Schedule.Settlement < b.Schedule.Maturity) :
    StrictAnti (fun x => (b.Pricing x n).2) := by
  have hall := cashflows_pos b hr.le hc hf
  have hfr : (0:ℝ) < (b.Schedule.Frequency : ℝ) := by exact_mod_cast hf
  have hca : 0 ≤ couponAmount b := by
    unfold couponAmount
    have h1 : 0 ≤ b.Coupon * b.Redemption := mul_nonneg hc hr.le
    positivity
  have hex : ∃ cf ∈ b.cashflows, 0 < cf.amount := by
    refine ⟨_, maturity_flow_mem b hm, ?_⟩
    simpa using add_pos_of_nonneg_of_pos hca hr
  have hsum := sum_df_strictAnti n b.cashflows hall hex
  intro a b' hab
  have h2 := hsum hab
  simp only at h2
  unfold Straight.Pricing
  dsimp only
  linarith

/-- Correctness of the bisection solver: with a strictly decreasing
objective, a root inside the bracket, and enough fuel to shrink the
bracket width below the tolerance, it returns a value within the
tolerance of the root. -/
theorem bisect_ok (f : ℝ → ℝ) (hf : StrictAnti f) (s tol : ℝ) :
    ∀ (n : ℕ) (lo hi : ℝ), lo ≤ s → s ≤ hi → hi - lo < tol * 2 ^ n →
    ∃ x, bisect f (f s) lo hi tol (n + 1) = Except.ok x ∧ |x - s| < tol := by
  intro n
  induction n with
  | zero =>
    intro lo hi hlo hhi hw
    simp only [pow_zero, mul_one] at hw
    refine ⟨(lo + hi) / 2, ?_, ?_⟩
    · unfold bisect
      rw [if_pos hw]
    · rw [abs_lt]
      constructor <;> linarith
  | succ k ih =>
    intro lo hi hlo hhi hw
    rw [pow_succ] at hw
    by_cases hstop : hi - lo < tol
    · refine ⟨(lo + hi) / 2, ?_, ?_⟩
      · unfold bisect
        rw [if_pos hstop]
      · rw [abs_lt]
        constructor <;> linarith
    · by_cases hmid : f s < f ((lo + hi) / 2)
      · have hmids : (lo + hi) / 2 < s := by
          by_contra hcon
          push_neg at hcon
          rcases eq_or_lt_of_le hcon with heq | hlt
          · rw [heq] at hmid
            exact lt_irrefl _ hmid
          · exact absurd hmid (not_lt.2 (hf hlt).le)
        obtain ⟨x, hx, hxs⟩ := ih ((lo + hi) / 2) hi hmids.le hhi (by linarith)
        refine ⟨x, ?_, hxs⟩
        unfold bisect
        rw [if_neg hstop, if_pos hmid]
        exact hx
      · have hsmid : s ≤ (lo + hi) / 2 := by
          by_contra hcon
          push_neg at hcon
          exact hmid (hf hcon)
        obtain ⟨x, hx, hxs⟩ := ih lo ((lo + hi) / 2) hlo hsmid (by linarith)
        refine ⟨x, ?_, hxs⟩
        unfold bisect
        rw [if_neg hstop, if_neg hmid]
        exact hx

/-- C3: round trip of the spread solver: for any well-formed bond and any
curve, and for a spread of -200, 0, 150 or 500 basis points, solving the
clean price produced by Pricing at that spread recovers the spread within
the solver tolerance. -/
theorem spread_round_trip (b : Straight) (n : NelsonSiegelSvensson) (s : ℝ)
    (hr : 0 < b.Redemption) (hc : 0 ≤ b.Coupon)
    (hf : 0 < b.Schedule.Frequency)
    (hm : b.Schedule.Settlement < b.Schedule.Maturity)
    (hs : s = -200 ∨ s = 0 ∨ s = 150 ∨ s = 500) :
    ∃ x, Spread ((b.Pricing s n).2) b n = Except.ok x
      ∧ |x - s| < 1 / 1000000 := by
  have hsa := cleanPrice_strictAnti b n hr hc hf hm
  have hlo : (-1000:ℝ) ≤ s := by
    rcases hs with h | h | h | h <;> rw [h] <;> norm_num
  have hhi : s ≤ 10000 := by
    rcases hs with h | h | h | h <;> rw [h] <;> norm_num
  have h100 : (100:ℕ) = 99 + 1 := rfl
  unfold Spread
  rw [h100]
  exact bisect_ok (fun x => (b.Pricing x n).2) hsa s (1 / 1000000) 99
    (-1000) 10000 hlo hhi (by norm_num)

/-- A sample bond: one year to maturity, five percent annual coupon,
redemption at par. -/
def bondSample : Straight := ⟨⟨0, 12, 1, "30E360"⟩, 5, 100⟩

/-- Witness for C3 at concrete inputs. -/
theorem spread_round_trip_witness :
    (0:ℝ) < bondSample.Redemption
    ∧ bondSample.Schedule.Settlement < bondSample.Schedule.Maturity
    ∧ ∃ x, Spread ((bondSample.Pricing 150 nssSample).2) bondSample nssSample =
        Except.ok x ∧ |x - 150| < 1 / 1000000 := by
  refine ⟨by norm_num [bondSample], by norm_num [bondSample], ?_⟩
  exact spread_round_trip bondSample nssSample 150 (by norm_num [bondSample])
    (by norm_num [bondSample]) (by norm_num [bondSample]) (by norm_num [bondSample])
    (Or.inr (Or.inr (Or.inl rfl)))

/-- The NSS loading (1 - exp (-t/tau)) / (t/tau) tends to 1 as t tends
to 0 from the right. -/
theorem tendsto_one_sub_exp_div (τ : ℝ) (hτ : 0 < τ) :
    Filter.Tendsto (fun t : ℝ => (1 - Real.exp (-(t / τ))) / (t / τ))
      (𝓝[>] (0:ℝ)) (𝓝 1) := by
  have hd : HasDerivAt (fun u : ℝ => 1 - Real.exp (-u)) 1 0 := by
    have h1 : HasDerivAt (fun u : ℝ => -u) (-1) 0 := (hasDerivAt_id (0:ℝ)).neg
    have h3 := HasDerivAt.const_sub 1 h1.exp
    convert h3 using 1
    simp
  have hslope := hasDerivAt_iff_tendsto_slope.1 hd
  have hs2 : Filter.Tendsto (fun u : ℝ => (1 - Real.exp (-u)) / u)
      (𝓝[≠] (0:ℝ)) (𝓝 1) := by
    apply hslope.congr
    intro u
    rw [slope_def_field]
    simp
  have hmap : Filter.Tendsto (fun t : ℝ => t / τ) (𝓝[>] (0:ℝ)) (𝓝[≠] (0:ℝ)) := by
    have hm1 : Filter.Tendsto (fun t : ℝ => t / τ) (𝓝[>] (0:ℝ)) (𝓝[>] (0:ℝ)) := by
      apply tendsto_nhdsWithin_of_tendsto_nhds_of_eventually_within
      · have h := (continuous_id.div_const τ).tendsto (0:ℝ)
        simp only [id, zero_div] at h
        exact h.mono_left nhdsWithin_le_nhds
      · filter_upwards [self_mem_nhdsWithin] with t ht
        exact div_pos ht hτ
    refine hm1.mono_right (nhdsWithin_mono _ ?_)
    intro x hx
    exact Set.mem_compl_singleton_iff.2 (ne_of_gt hx)
  exact hs2.comp hmap

/-- The spot rate tends to b0 + b1 as maturity tends to 0 from the
right. -/
theorem tendsto_spotRate (n : NelsonSiegelSvensson)
    (h1 : 0 < n.t1) (h2 : 0 < n.t2) :
    Filter.Tendsto (fun t => spotRate n t) (𝓝[>] (0:ℝ)) (𝓝 (n.b0 + n.b1)) := by
  have e1 := tendsto_one_sub_exp_div n.t1 h1
  have e2 := tendsto_one_sub_exp_div n.t2 h2
  have x1 : Filter.Tendsto (fun t : ℝ => Real.exp (-(t / n.t1)))
      (𝓝[>] (0:ℝ)) (𝓝 1) := by
    have hc : Continuous fun t : ℝ => Real.exp (-(t / n.t1)) :=
      Real.continuous_exp.comp (continuous_id.div_const n.t1).neg
    have h := hc.tendsto (0:ℝ)
    simp only [id, zero_div, neg_zero, Real.exp_zero] at h
    exact h.mono_left nhdsWithin_le_nhds
  have x2 : Filter.Tendsto (fun t : ℝ => Real.exp (-(t / n.t2)))
      (𝓝[>] (0:ℝ)) (𝓝 1) := by
    have hc : Continuous fun t : ℝ => Real.exp (-(t / n.t2)) :=
      Real.continuous_exp.comp (continuous_id.div_const n.t2).neg
    have h := hc.tendsto (0:ℝ)
    simp only [id, zero_div, neg_zero, Real.exp_zero] at h
    exact h.mono_left nhdsWithin_le_nhds
  have hE : Filter.Tendsto (fun t : ℝ =>
      n.b0 + n.b1 * ((1 - Real.exp (-(t / n.t1))) / (t / n.t1))
      + n.b2 * ((1 - Real.exp (-(t / n.t1))) / (t / n.t1) - Real.exp (-(t / n.t1)))
      + n.b3 * ((1 - Real.exp (-(t / n.t2))) / (t / n.t2) - Real.exp (-(t / n.t2))))
      (𝓝[>] (0:ℝ))
      (𝓝 (n.b0 + n.b1 * 1 + n.b2 * (1 - 1) + n.b3 * (1 - 1))) :=
    ((tendsto_const_nhds.add (e1.const_mul n.b1)).add
      ((e1.sub x1).const_mul n.b2)).add ((e2.sub x2).const_mul n.b3)
  have hev : (fun t : ℝ =>
      n.b0 + n.b1 * ((1 - Real.exp (-(t / n.t1))) / (t / n.t1))
      + n.b2 * ((1 - Real.exp (-(t / n.t1))) / (t / n.t1) - Real.exp (-(t / n.t1)))
      + n.b3 * ((1 - Real.exp (-(t / n.t2))) / (t / n.t2) - Real.exp (-(t / n.t2))))
      =ᶠ[𝓝[>] (0:ℝ)] (fun t => spotRate n t) := by
    filter_upwards [self_mem_nhdsWithin] with t ht
    unfold spotRate
    rw [if_neg (ne_of_gt ht)]
  have h := hE.congr' hev
  convert h using 2
  ring

/-- The accumulated rate has the forward rate as its derivative. -/
theorem hasDerivAt_rateIntegral (n : NelsonSiegelSvensson)
    (h1 : 0 < n.t1) (h2 : 0 < n.t2) (t : ℝ) :
    HasDerivAt (fun u => rateIntegral n u) (forwardRate n t) t := by
  have ht1 : n.t1 ≠ 0 := ne_of_gt h1
  have ht2 : n.t2 ≠ 0 := ne_of_gt h2
  have e1 : HasDerivAt (fun u : ℝ => Real.exp (-(u / n.t1)))
      (Real.exp (-(t / n.t1)) * -(1 / n.t1)) t :=
    (((hasDerivAt_id t).div_const n.t1).neg).exp
  have e2 : HasDerivAt (fun u : ℝ => Real.exp (-(u / n.t2)))
      (Real.exp (-(t / n.t2)) * -(1 / n.t2)) t :=
    (((hasDerivAt_id t).div_const n.t2).neg).exp
  have A : HasDerivAt (fun u : ℝ => n.b0 * u) (n.b0 * 1) t :=
    HasDerivAt.const_mul n.b0 (hasDerivAt_id t)
  have B1 : HasDerivAt (fun u : ℝ => n.t1 * (1 - Real.exp (-(u / n.t1))))
      (n.t1 * -(Real.exp (-(t / n.t1)) * -(1 / n.t1))) t :=
    HasDerivAt.const_mul n.t1 (HasDerivAt.const_sub 1 e1)
  have B2 : HasDerivAt (fun u : ℝ => n.t2 * (1 - Real.exp (-(u / n.t2))))
      (n.t2 * -(Real.exp (-(t / n.t2)) * -(1 / n.t2))) t :=
    HasDerivAt.const_mul n.t2 (HasDerivAt.const_sub 1 e2)
  have C1 : HasDerivAt (fun u : ℝ => u * Real.exp (-(u / n.t1)))
      (1 * Real.exp (-(t / n.t1)) + t * (Real.exp (-(t / n.t1)) * -(1 / n.t1))) t :=
    (hasDerivAt_id t).mul e1
  have C2 : HasDerivAt (fun u : ℝ => u * Real.exp (-(u / n.t2)))
      (1 * Real.exp (-(t / n.t2)) + t * (Real.exp (-(t / n.t2)) * -(1 / n.t2))) t :=
    (hasDerivAt_id t).mul e2
  have total := ((A.add (HasDerivAt.const_mul n.b1 B1)).add
    (HasDerivAt.const_mul n.b2 (B1.sub C1))).add
    (HasDerivAt.const_mul n.b3 (B2.sub C2))
  unfold rateIntegral forwardRate
  convert total using 1
  field_simp

/-- For a nonzero maturity the zero rate times the maturity equals the
accumulated rate. -/
theorem zeroRate_mul_eq_rateIntegral (n : NelsonSiegelSvensson)
    (h1 : 0 < n.t1) (h2 : 0 < n.t2) (t : ℝ) (ht : t ≠ 0) :
    zeroRate n t 0 * t = rateIntegral n t := by
  have ht1 : n.t1 ≠ 0 := ne_of_gt h1
  have ht2 : n.t2 ≠ 0 := ne_of_gt h2
  unfold zeroRate spotRate rateIntegral
  rw [if_neg ht]
  field_simp
  ring

/-- With a positive implied forward-rate curve the discount factor is
strictly decreasing in maturity. -/
theorem discountFactor_strictAntiOn (n : NelsonSiegelSvensson)
    (h1 : 0 < n.t1) (h2 : 0 < n.t2)
    (hf : ∀ t, 0 < t → 0 < forwardRate n t) :
    StrictAntiOn (fun t => discountFactor n t 0) (Set.Ioi (0:ℝ)) := by
  intro a ha b hb hab
  have hmono : StrictMonoOn (fun u => rateIntegral n u) (Set.Icc a b) := by
    apply strictMonoOn_of_deriv_pos (convex_Icc a b)
    · exact (Differentiable.continuous
        (fun u => (hasDerivAt_rateIntegral n h1 h2 u).differentiableAt)).continuousOn
    · intro x hx
      rw [(hasDerivAt_rateIntegral n h1 h2 x).deriv]
      rw [interior_Icc] at hx
      exact hf x (lt_trans (Set.mem_Ioi.1 ha) hx.1)
  have hG : rateIntegral n a < rateIntegral n b :=
    hmono (Set.left_mem_Icc.2 hab.le) (Set.right_mem_Icc.2 hab.le) hab
  have hea := zeroRate_mul_eq_rateIntegral n h1 h2 a (ne_of_gt (Set.mem_Ioi.1 ha))
  have heb := zeroRate_mul_eq_rateIntegral n h1 h2 b (ne_of_gt (Set.mem_Ioi.1 hb))
  show discountFactor n b 0 < discountFactor n a 0
  unfold discountFactor
  apply Real.exp_lt_exp.2
  have h3 : -(zeroRate n b 0) * b = -(rateIntegral n b) := by
    rw [← heb]
    ring
  have h4 : -(zeroRate n a 0) * a = -(rateIntegral n a) := by
    rw [← hea]
    ring
  rw [h3, h4]
  linarith

/-- C6: for valid NSS parameters the zero rate at maturity 0 with zero
spread is b0 + b1 and is the limit of the formula from the right, the
discount factor at maturity 0 is 1 for any spread, and the discount
factor with zero spread is strictly decreasing in maturity whenever the
implied instantaneous forward rate is positive. -/
theorem nss_limit_and_discount_monotone (n : NelsonSiegelSvensson)
    (h1 : 0 < n.t1) (h2 : 0 < n.t2) :
    zeroRate n 0 0 = n.b0 + n.b1
    ∧ Filter.Tendsto (fun t => zeroRate n t 0) (𝓝[>] (0:ℝ)) (𝓝 (n.b0 + n.b1))
    ∧ (∀ spread, discountFactor n 0 spread = 1)
    ∧ ((∀ t, 0 < t → 0 < forwardRate n t) →
        StrictAntiOn (fun t => discountFactor n t 0) (Set.Ioi (0:ℝ))) := by
  refine ⟨?_, ?_, ?_, discountFactor_strictAntiOn n h1 h2⟩
  · unfold zeroRate spotRate
    rw [if_pos rfl]
    norm_num
  · have h := tendsto_spotRate n h1 h2
    unfold zeroRate
    simpa using h
  · intro s
    unfold discountFactor
    simp

/-- Witness for C6 at a concrete flat curve. -/
theorem nss_limit_and_discount_monotone_witness :
    zeroRate nssSample 0 0 = nssSample.b0 + nssSample.b1
    ∧ discountFactor nssSample 0 250 = 1
    ∧ StrictAntiOn (fun t => discountFactor nssSample t 0) (Set.Ioi (0:ℝ)) := by
  have h := nss_limit_and_discount_monotone nssSample
    (by norm_num [nssSample]) (by norm_num [nssSample])
  refine ⟨h.1, h.2.2.1 250, h.2.2.2 ?_⟩
  intro t ht
  unfold forwardRate
  norm_num [nssSample]
